import Mathlib

/-!
Verification development for the bank-statement conversion system
(extraction pipeline, text normalizer, multi-strategy transaction
parser, and the web frontend's upload/download handlers).

The core pipeline components (Extractor, Normalizer, ParsingEngine) are
modelled from the specification, as the backend sources
(`backend/app/extraction.py`, `backend/app/parsing.py`) are not part of
the available source tree; the frontend handlers are embedded directly
from `frontend/pages/index.tsx` and `frontend/components/DownloadLink.tsx`.
Text is represented as `List Char`; fixed-point decimal amounts are
integers counting thousandths of a currency unit.
-/

namespace UStmt

/-- Character list of a string literal; the text representation used throughout. -/
def str (s : String) : List Char := s.data

/-- Tokens are runs of non-whitespace characters. -/
abbrev Tok := List Char

/-- Modelled from the spec: the Normalizer's first step replaces known
mis-encoded byte sequences with their intended characters and unifies
whitespace characters (tabs, non-breaking spaces) into plain spaces so
that later whitespace collapsing sees a single separator character. -/
def fixChar (c : Char) : Char :=
  if c == '\t' then ' '
  else if c == ' ' then ' '
  else if c == '“' then '"'
  else if c == '”' then '"'
  else c

/-- Lines of a text, split at newline characters (page-break markers and
blank lines are preserved as lines of their own). -/
def splitLines (s : List Char) : List (List Char) := s.splitOn '\n'

/-- Rejoin lines with single newline characters. -/
def joinLines (ls : List (List Char)) : List Char := [('\n' : Char)].intercalate ls

/-- Tokens of a line: split at spaces and drop the empty fragments, which
collapses runs of whitespace. -/
def splitToks (l : List Char) : List Tok :=
  (l.splitOn ' ').filter (fun t => !t.isEmpty)

/-- Rejoin tokens with single spaces. -/
def joinToks (ts : List Tok) : List Char := [(' ' : Char)].intercalate ts

/-- Decimal digit character for `n % 10`. -/
def digitChar (n : Nat) : Char :=
  if n % 10 = 0 then '0' else if n % 10 = 1 then '1' else if n % 10 = 2 then '2'
  else if n % 10 = 3 then '3' else if n % 10 = 4 then '4' else if n % 10 = 5 then '5'
  else if n % 10 = 6 then '6' else if n % 10 = 7 then '7' else if n % 10 = 8 then '8'
  else '9'

/-- Two-digit zero-padded numeral. -/
def pad2 (n : Nat) : Tok := [digitChar (n / 10), digitChar n]

/-- Four-digit zero-padded numeral. -/
def pad4 (n : Nat) : Tok := [digitChar (n / 1000), digitChar (n / 100), digitChar (n / 10), digitChar n]

/-- Canonical `YYYY-MM-DD` date token. -/
def mkCanon (y m d : Nat) : Tok := pad4 y ++ '-' :: (pad2 m ++ '-' :: pad2 d)

/-- Numeric value of a token of decimal digits. -/
def toNum (t : Tok) : Nat := t.foldl (fun a c => 10 * a + (c.toNat - 48)) 0

/-- Every character of the token is a decimal digit. -/
def allDigits (t : Tok) : Bool := t.all Char.isDigit

/-- Day-of-month token: one or two digits with value 1..31. -/
def isDayTok (t : Tok) : Bool :=
  (t.length == 1 || t.length == 2) && allDigits t
    && decide (1 ≤ toNum t) && decide (toNum t ≤ 31)

/-- Month number of a three-letter English month-name token, 0 if none. -/
def monthNum (t : Tok) : Nat :=
  if t == str "Jan" then 1 else if t == str "Feb" then 2 else if t == str "Mar" then 3
  else if t == str "Apr" then 4 else if t == str "May" then 5 else if t == str "Jun" then 6
  else if t == str "Jul" then 7 else if t == str "Aug" then 8 else if t == str "Sep" then 9
  else if t == str "Oct" then 10 else if t == str "Nov" then 11 else if t == str "Dec" then 12
  else 0

/-- Month-name token. -/
def isMonthTok (t : Tok) : Bool := monthNum t != 0

/-- Four-digit year token. -/
def isYearTok (t : Tok) : Bool := t.length == 4 && allDigits t

/-- Numeric month token: one or two digits with value 1..12. -/
def isMonthNumTok (t : Tok) : Bool :=
  (t.length == 1 || t.length == 2) && allDigits t
    && decide (1 ≤ toNum t) && decide (toNum t ≤ 12)

/-- Two-digit year token (UK short form, expanded as 20YY). -/
def isYYTok (t : Tok) : Bool := t.length == 2 && allDigits t

/-- Modelled from the spec: rewrite of a single recognized date token
(`DD/MM/YYYY`, `DD-MM-YY`, and the two-digit-year UK variant `DD/MM/YY`)
into the canonical `YYYY-MM-DD` form; unrecognized tokens pass through. -/
def rw1 (t : Tok) : Tok :=
  match t.splitOn '/' with
  | [d, m, y] =>
    if isDayTok d && isMonthNumTok m && isYearTok y then
      mkCanon (toNum y) (toNum m) (toNum d)
    else if isDayTok d && isMonthNumTok m && isYYTok y then
      mkCanon (2000 + toNum y) (toNum m) (toNum d)
    else t
  | _ =>
    match t.splitOn '-' with
    | [d, m, y] =>
      if isDayTok d && isMonthNumTok m && isYYTok y then
        mkCanon (2000 + toNum y) (toNum m) (toNum d)
      else t
    | _ => t

/-- Recognizer for the three-token `DD MMM YYYY` date form. -/
def isDMY (d m y : Tok) : Bool := isDayTok d && isMonthTok m && isYearTok y

/-- Canonical form of a recognized `DD MMM YYYY` token triple. -/
def canon3 (d m y : Tok) : Tok := mkCanon (toNum y) (monthNum m) (toNum d)

/-- Modelled from the spec: the Normalizer's date rewriting pass over the
tokens of one line; recognized `DD MMM YYYY` triples and recognized
single-token date forms are rewritten in place, all other tokens are
left untouched. -/
def dateRewrite : List Tok → List Tok
  | [] => []
  | [t] => [rw1 t]
  | [t, u] => [rw1 t, rw1 u]
  | d :: m :: y :: rest =>
    if isDMY d m y then canon3 d m y :: dateRewrite rest
    else rw1 d :: dateRewrite (m :: y :: rest)

/-- Characters allowed in an amount-like token (OCR confusion scope). -/
def numishChar (c : Char) : Bool :=
  c.isDigit || c == 'O' || c == 'o' || c == '.' || c == ','
    || c == '£' || c == '-' || c == '(' || c == ')'

/-- Numeric-looking token: only amount-like characters, at least one digit. -/
def numish (t : Tok) : Bool := t.all numishChar && t.any Char.isDigit

/-- One-directional OCR confusion correction on a character: letter O to
digit 0 (applied only inside numeric-looking tokens). -/
def oFix (c : Char) : Char := if c == 'O' || c == 'o' then '0' else c

/-- Modelled from the spec: the fixed one-directional OCR confusion
correction table, scoped to numeric-looking tokens only. -/
def ocrFixTok (t : Tok) : Tok := if numish t then t.map oFix else t

/-- Modelled from the spec: normalization of one line — collapse
whitespace runs by re-tokenizing, apply OCR confusion corrections, then
rewrite recognized date tokens; rejoin with single spaces. -/
def normLine (l : List Char) : List Char :=
  joinToks (dateRewrite ((splitToks l).map ocrFixTok))

/-- Modelled from the spec: the Normalizer, a pure function on the raw
document text. Encoding artifacts are repaired characterwise, then each
line (line breaks and page-break markers are preserved) is cleaned
independently. -/
def normalizeText (s : List Char) : List Char :=
  joinLines ((splitLines (s.map fixChar)).map normLine)

/-! Parsing engine. Amounts are fixed-point decimals stored as integer
numbers of thousandths of a currency unit, so the reconciliation
tolerance 0.005 is the integer 5. -/

abbrev Amount := Int

/-- Parse an unsigned decimal numeral with zero, one or two decimal
places into thousandths. -/
def parseDecimal (t : Tok) : Option Amount :=
  match t.splitOn '.' with
  | [ip] =>
    if !ip.isEmpty && allDigits ip then some ((toNum ip : Int) * 1000) else none
  | [ip, fp] =>
    if !ip.isEmpty && allDigits ip && allDigits fp then
      if fp.length == 1 then some ((toNum ip : Int) * 1000 + (toNum fp : Int) * 100)
      else if fp.length == 2 then some ((toNum ip : Int) * 1000 + (toNum fp : Int) * 10)
      else none
    else none
  | _ => none

/-- Characters stripped before parsing an amount: currency symbols and
thousands separators. -/
def strippedChar (c : Char) : Bool := c == '£' || c == ','

/-- Modelled from the spec: parse a monetary token. Currency symbols and
thousands separators are stripped; a leading minus sign or
parenthesization marks the amount as negative, which is later normalized
into the debit/credit classification rather than kept as a signed value.
Returns the magnitude in thousandths and the negativity flag. -/
def parseAmount (t : Tok) : Option (Amount × Bool) :=
  match t.filter (fun c => !strippedChar c) with
  | '-' :: r => (parseDecimal r).map (fun v => (v, true))
  | '(' :: r =>
    match r.getLast? with
    | some ')' => (parseDecimal r.dropLast).map (fun v => (v, true))
    | _ => none
  | r => (parseDecimal r).map (fun v => (v, false))

/-- Canonical `YYYY-MM-DD` date token recognizer (the Normalizer's output form). -/
def isCanonDate (t : Tok) : Bool :=
  match t.splitOn '-' with
  | [y, m, d] => isYearTok y && m.length == 2 && allDigits m && d.length == 2 && allDigits d
  | _ => false

/-- Parsed transaction line: date, free-text description, optional debit,
optional credit, optional running balance, source line index and a
confidence score in [0,1]. -/
structure TransactionCandidate where
  date : Tok
  description : Tok
  debit : Option Amount
  credit : Option Amount
  balance : Option Amount
  lineSpan : Nat
  confidence : ℚ
deriving DecidableEq, Repr

/-- Classification of a single amount into the debit or credit field:
negative amounts are debits, positive ones credits; exactly one side is
populated. -/
def classifyDC (neg : Bool) (v : Amount) : Option Amount × Option Amount :=
  if neg then (some v, none) else (none, some v)

/-- Smart constructor all strategies funnel through: the debit/credit
pair always comes from `classifyDC`. -/
def mkCand (date desc : Tok) (neg : Bool) (v : Amount) (bal : Option Amount)
    (i : Nat) (conf : ℚ) : TransactionCandidate :=
  ⟨date, desc, (classifyDC neg v).1, (classifyDC neg v).2, bal, i, conf⟩

/-- Peel up to `n` leading parseable amount tokens off a token list
(used on the reversed tail of a line to find trailing amounts). -/
def peelAmounts : Nat → List Tok → List (Amount × Bool) × List Tok
  | 0, ts => ([], ts)
  | _ + 1, [] => ([], [])
  | n + 1, t :: ts =>
    match parseAmount t with
    | some a => let p := peelAmounts n ts; (a :: p.1, p.2)
    | none => ([], t :: ts)

/-- Modelled from the spec: the standard line strategy on one line — a
canonical date token, a nonempty description, then one to three trailing
amount tokens; the leftmost trailing amount is classified debit or
credit and the rightmost becomes the balance when more than one amount
is present. -/
def stdLine (i : Nat) (l : List Tok) : Option TransactionCandidate :=
  match l with
  | [] => none
  | date :: rest =>
    if isCanonDate date then
      match (peelAmounts 3 rest.reverse).1.reverse with
      | [] => none
      | (v, neg) :: tail =>
        if (peelAmounts 3 rest.reverse).2.isEmpty then none
        else some (mkCand date (joinToks (peelAmounts 3 rest.reverse).2.reverse) neg v
          ((tail.getLast?).map (fun ab => ab.1)) i 1)
    else none

/-- Placeholder cell for an empty debit or credit column in a tabular row. -/
def dashTok : Tok := ['-']

/-- Modelled from the spec: the tabular strategy on one line — a
canonical date, description cells, then a debit cell, a credit cell and
a balance cell; exactly one of the debit/credit cells holds an amount,
the other the placeholder dash. -/
def tabLine (i : Nat) (l : List Tok) : Option TransactionCandidate :=
  match l with
  | [] => none
  | date :: rest =>
    if isCanonDate date then
      match rest.reverse with
      | bal :: cCell :: dCell :: descRev =>
        if descRev.isEmpty then none
        else
          match parseAmount bal with
          | none => none
          | some (bv, _) =>
            match parseAmount dCell, parseAmount cCell with
            | some (dv, _), none =>
              if cCell == dashTok then
                some (mkCand date (joinToks descRev.reverse) true dv (some bv) i (7 / 10))
              else none
            | none, some (cv, _) =>
              if dCell == dashTok then
                some (mkCand date (joinToks descRev.reverse) false cv (some bv) i (7 / 10))
              else none
            | _, _ => none
      | _ => none
    else none

/-- Modelled from the spec: the line-by-line fallback strategy on one
line — any line containing a date token; the first one-to-three monetary
tokens are captured, debit vs credit is classified by a DR/CR keyword on
the line or else by the sign, remaining text is the description. -/
def lblLine (i : Nat) (l : List Tok) : Option TransactionCandidate :=
  match l.find? isCanonDate with
  | none => none
  | some date =>
    match (l.filterMap parseAmount).take 3 with
    | [] => none
    | (v, neg) :: tail =>
      some (mkCand date
        (joinToks (l.filter (fun t =>
          !isCanonDate t && (parseAmount t).isNone && t != str "DR" && t != str "CR")))
        (if l.contains (str "DR") then true
          else if l.contains (str "CR") then false else neg)
        v ((tail.getLast?).map (fun ab => ab.1)) i (1 / 2))

/-- Parsing strategy: a pure function from tokenized normalized lines to
transaction candidates. -/
abbrev Strategy := List (List Tok) → List TransactionCandidate

/-- Apply a per-line candidate parser to every line, keeping document
(line) order. -/
def runLines (f : Nat → List Tok → Option TransactionCandidate) : Strategy :=
  fun lines => lines.enum.filterMap (fun p => f p.1 p.2)

def standardStrategy : Strategy := runLines stdLine

def tabularStrategy : Strategy := runLines tabLine

def lineByLineStrategy : Strategy := runLines lblLine

/-- Modelled from the spec: the fixed ordered strategy chain. -/
def allStrategies : List (String × Strategy) :=
  [("standard", standardStrategy), ("tabular", tabularStrategy),
   ("line_by_line", lineByLineStrategy)]

/-- Reconciliation tolerance: 0.005 in thousandths. -/
def tolerance : Amount := 5

/-- Amount of an optional debit/credit field, zero when absent. -/
def amt0 (o : Option Amount) : Amount := o.getD 0

/-- Both balances of a consecutive pair are present, so the pair is
subject to reconciliation. -/
def pairChecked (prev cur : TransactionCandidate) : Bool :=
  prev.balance.isSome && cur.balance.isSome

/-- Modelled from the spec: a consecutive pair reconciles when
`balance[i] == balance[i-1] + credit[i] - debit[i]` within the rounding
tolerance (pairs with a missing balance are not checked and pass). -/
def pairOk (prev cur : TransactionCandidate) : Bool :=
  match prev.balance, cur.balance with
  | some b0, some b1 => decide ((b1 - (b0 + amt0 cur.credit - amt0 cur.debit)).natAbs < 5)
  | _, _ => true

/-- Consecutive candidate pairs of a sequence. -/
def consecPairs (cs : List TransactionCandidate) :
    List (TransactionCandidate × TransactionCandidate) := cs.zip cs.tail

/-- Modelled from the spec: reconciliation warnings — one warning per
checked consecutive pair that fails the balance equation, recorded by
the line-order index of the second candidate of the pair; candidates are
never dropped or modified. -/
def reconWarnings (cs : List TransactionCandidate) : List Nat :=
  (consecPairs cs).enum.filterMap (fun p =>
    if pairChecked p.2.1 p.2.2 && !pairOk p.2.1 p.2.2 then some (p.1 + 1) else none)

/-- Number of consecutive pairs subject to reconciliation. -/
def checkedCount (cs : List TransactionCandidate) : Nat :=
  ((consecPairs cs).filter (fun p => pairChecked p.1 p.2)).length

/-- Number of checked consecutive pairs that reconcile. -/
def passedCount (cs : List TransactionCandidate) : Nat :=
  ((consecPairs cs).filter (fun p => pairChecked p.1 p.2 && pairOk p.1 p.2)).length

/-- Modelled from the spec: the balance-reconciliation pass-rate clears
the minimum fraction when at least 50 percent of the checked pairs
reconcile. -/
def passOK (cs : List TransactionCandidate) : Bool :=
  decide (checkedCount cs ≤ 2 * passedCount cs)

/-- Modelled from the spec: a strategy result is accepted when its
candidate count reaches the minimum threshold (at least one transaction)
and its reconciliation pass-rate clears the minimum fraction. -/
def accepted (cs : List TransactionCandidate) : Bool :=
  decide (1 ≤ cs.length) && passOK cs

/-- Parse diagnostics and result contract returned to the caller. -/
structure ParseResult where
  transactions : List TransactionCandidate
  strategyUsed : String
  counts : List (String × Nat)
  warnings : List Nat
  lowConfidence : Bool
deriving DecidableEq, Repr

/-- Fatal parsing failure kinds. -/
inductive ParseFailure
  | noTransactionsParsed
deriving DecidableEq, Repr

/-- Fatal parsing error with the per-strategy diagnostics that are still
returned for troubleshooting. -/
structure ParseError where
  kind : ParseFailure
  counts : List (String × Nat)
deriving DecidableEq, Repr

/-- Run every strategy of the chain, in order, over the same lines. -/
def runAll (lines : List (List Tok)) : List (String × List TransactionCandidate) :=
  allStrategies.map (fun s => (s.1, s.2 lines))

/-- Candidate count produced by each attempted strategy. -/
def strategyCounts (rs : List (String × List TransactionCandidate)) : List (String × Nat) :=
  rs.map (fun r => (r.1, r.2.length))

/-- First strategy result, in chain order, that clears both thresholds. -/
def pickAccepted : List (String × List TransactionCandidate) →
    Option (String × List TransactionCandidate)
  | [] => none
  | r :: rest => if accepted r.2 then some r else pickAccepted rest

/-- Strategy result with the highest candidate count (earliest wins ties). -/
def bestByCount : List (String × List TransactionCandidate) →
    String × List TransactionCandidate
  | [] => ("", [])
  | [r] => r
  | r :: r2 :: rest =>
    let b := bestByCount (r2 :: rest)
    if r.2.length < b.2.length then b else r

/-- Modelled from the spec: the ParsingEngine. Strategies run in the
fixed chain order; the first result clearing both thresholds is
accepted; otherwise the highest-count result is returned flagged
`low_confidence`; zero candidates across all strategies is the hard
failure `NoTransactionsParsed` carrying zero-count diagnostics. -/
def parsingEngine (lines : List (List Tok)) : Except ParseError ParseResult :=
  let rs := runAll lines
  if rs.all (fun r => r.2.isEmpty) then
    .error ⟨.noTransactionsParsed, strategyCounts rs⟩
  else
    match pickAccepted rs with
    | some r => .ok ⟨r.2, r.1, strategyCounts rs, reconWarnings r.2, false⟩
    | none =>
      let b := bestByCount rs
      .ok ⟨b.2, b.1, strategyCounts rs, reconWarnings b.2, true⟩

/-- ParsingEngine on normalized text: tokenize each line, then run the
strategy chain. -/
def parseNormalized (s : List Char) : Except ParseError ParseResult :=
  parsingEngine ((splitLines s).map splitToks)

/-! Extractor. The page-addressable document capability, the page
renderer and the OCR adapter are external collaborators; a page input
carries the text layer the TextLayerExtractor would produce and the
outcome the OCR adapter would report for the rendered page (`none` for
OCR failure or timeout). -/

/-- Extraction method recorded per page. -/
inductive ExtractMethod
  | text
  | ocr
  | failed
deriving DecidableEq, Repr

/-- Per-page input as provided by the external collaborators. -/
structure PageInput where
  textLayer : List Char
  ocrOutcome : Option (List Char × Option ℚ)
deriving DecidableEq, Repr

/-- Per-page extraction outcome; `ocrInvoked` records whether the OCR
adapter was called for the page. -/
structure PageOut where
  index : Nat
  method : ExtractMethod
  text : List Char
  confidence : ℚ
  ocrInvoked : Bool
deriving DecidableEq, Repr

/-- Alphanumeric character count of extracted text. -/
def alnumCount (t : List Char) : Nat := (t.filter Char.isAlphanum).length

/-- Printable character count of extracted text. -/
def printableCount (t : List Char) : Nat :=
  (t.filter (fun c => decide (32 ≤ c.toNat))).length

/-- Modelled from the spec: the sufficiency score — minimum alphanumeric
count (20) and minimum printable-to-total ratio (9/10). -/
def sufficientText (t : List Char) : Bool :=
  decide (20 ≤ alnumCount t) && decide (9 * t.length ≤ 10 * printableCount t)

/-- OCR confidence: the engine's reported value when available, else the
fixed heuristic 1/2. -/
def ocrConfidence (r : Option ℚ) : ℚ := r.getD (1 / 2)

/-- Modelled from the spec: per-page extraction. The text layer is always
attempted first; only if insufficient is the page rasterized and the OCR
adapter invoked; if OCR output is also below the same sufficiency
threshold the page is marked failed with empty text and confidence 0. -/
def extractPage (i : Nat) (p : PageInput) : PageOut :=
  if sufficientText p.textLayer then ⟨i, .text, p.textLayer, 1, false⟩
  else
    match p.ocrOutcome with
    | some (t, conf) =>
      if sufficientText t then ⟨i, .ocr, t, ocrConfidence conf, true⟩
      else ⟨i, .failed, [], 0, true⟩
    | none => ⟨i, .failed, [], 0, true⟩

/-- Hard extraction failure kinds. -/
inductive ExtractFailure
  | noTextFound
deriving DecidableEq, Repr

/-- Extract every page of the document; a failed page never aborts the
document, the Extractor proceeds to all remaining pages. -/
def extractPages (doc : List PageInput) : List PageOut :=
  doc.enum.map (fun p => extractPage p.1 p.2)

/-- Every page of the document ended up failed. -/
def allFailed (outs : List PageOut) : Bool :=
  outs.all (fun o => decide (o.method = .failed))

/-- Modelled from the spec: document-level extraction — unusable only if
all pages fail, which is the hard failure `NoTextFound`. -/
def extractDocument (doc : List PageInput) : Except ExtractFailure (List PageOut) :=
  let outs := extractPages doc
  if allFailed outs then .error .noTextFound else .ok outs

/-- Both text-layer and OCR extraction fail on this page. -/
def pageFails (p : PageInput) : Bool :=
  !sufficientText p.textLayer
    && (match p.ocrOutcome with
        | some (t, _) => !sufficientText t
        | none => true)

/-- Merge per-page raw texts into one document text stream, page
boundaries preserved as line breaks. -/
def mergePages (outs : List PageOut) : List Char :=
  joinLines (outs.map (fun o => o.text))

/-- Document-level failure kinds of the whole pipeline. -/
inductive PipelineError
  | extract (e : ExtractFailure)
  | parse (e : ParseError)
deriving DecidableEq, Repr

/-- Full pipeline with an arbitrary parsing stage: extract, normalize,
parse. The parsing stage is a parameter so that it is evident that
extraction failures are raised before the ParsingEngine is ever
invoked. -/
def pipelineWith (parseFn : List Char → Except ParseError ParseResult)
    (doc : List PageInput) : Except PipelineError ParseResult :=
  match extractDocument doc with
  | .error e => .error (.extract e)
  | .ok outs =>
    match parseFn (normalizeText (mergePages outs)) with
    | .error e => .error (.parse e)
    | .ok pr => .ok pr

/-- The deployed pipeline: extraction, normalization, then the strategy
chain. -/
def pipeline : List PageInput → Except PipelineError ParseResult :=
  pipelineWith parseNormalized

/-! Frontend models, embedded from `frontend/pages/index.tsx`
(`handleFileUpload`) and `frontend/components/DownloadLink.tsx`
(`handleDownload`). React state updates become explicit state records;
one invocation of a handler is a pure function from the fetch outcome to
the final state. -/

/-- Debug log entry relayed by the backend. -/
structure DebugLog where
  timestamp : String
  level : String
  message : String
deriving DecidableEq, Repr

/-- Success payload of `/api/convert` as consumed by the frontend. -/
structure ConversionResult where
  sessionId : String
  transactionsCount : Nat
  excelUrl : String
  csvUrl : String
  success : Bool
deriving DecidableEq, Repr

/-- Body of a `/api/convert` response: the error flag and error details
together with the success-view payload and optional debug logs. -/
structure ResponseBody where
  error : Bool
  message : Option String
  sessionId : Option String
  debugLogs : Option (List DebugLog)
  payload : ConversionResult
deriving DecidableEq, Repr

/-- Outcome of the `fetch` call in `handleFileUpload`: either a parsed
response with its `ok` flag, or a thrown network error. -/
inductive FetchOutcome
  | response (ok : Bool) (body : ResponseBody)
  | networkError (msg : String)
deriving DecidableEq, Repr

/-- React state of the upload page (`Home` component). -/
structure UploadState where
  isProcessing : Bool
  progress : Nat
  progressMessage : String
  result : Option ConversionResult
  error : Option String
  errorDetails : Option ResponseBody
  debugLogs : List DebugLog
  showDebugPanel : Bool
  debugMode : Bool
deriving DecidableEq, Repr

/-- The `handleFileUpload` handler of `frontend/pages/index.tsx`: resets
state, performs the upload, and on a non-ok response or a body carrying
the error flag records the error and returns before the success branch;
the `finally` block always clears `isProcessing`. -/
def handleFileUpload (st : UploadState) (o : FetchOutcome) : UploadState :=
  let st1 := { st with
    isProcessing := true, progress := 0,
    progressMessage := "Initializing...", result := none, error := none,
    errorDetails := none, debugLogs := [] }
  let st2 := { st1 with progress := 10, progressMessage := "Uploading file..." }
  let fin :=
    match o with
    | .networkError msg =>
      { st2 with
        error := some ("Network error: " ++ msg), progress := 0 }
    | .response ok body =>
      if !ok || body.error then
        let e1 := { st2 with
          error := some (body.message.getD "Conversion failed"),
          errorDetails := some body }
        let e2 :=
          match body.debugLogs with
          | some logs => { e1 with debugLogs := logs }
          | none => e1
        if e2.debugMode then { e2 with showDebugPanel := true } else e2
      else
        let s1 := { st2 with
          progress := 100,
          progressMessage := "Conversion complete!", result := some body.payload }
        match body.debugLogs with
        | some logs => { s1 with debugLogs := logs }
        | none => s1
  { fin with isProcessing := false }

/-- Outcome of one download attempt in the `DownloadLink` component:
fetch ok with the blob and DOM steps succeeding, a non-ok response
(thrown as an error and caught), or any other thrown exception. -/
inductive DownloadOutcome
  | success
  | httpError
  | thrown (msg : String)
deriving DecidableEq, Repr

/-- React state of the `DownloadLink` component; `alerted` records
whether the failure alert was shown. -/
structure DownloadState where
  isDownloading : Bool
  alerted : Bool
deriving DecidableEq, Repr

/-- The `handleDownload` handler of
`frontend/components/DownloadLink.tsx`: sets `isDownloading`, runs the
download in a try/catch whose catch shows the alert, and resets
`isDownloading` in the `finally` block on every path. -/
def handleDownload (st : DownloadState) (o : DownloadOutcome) : DownloadState :=
  let st1 := { st with isDownloading := true }
  let fin :=
    match o with
    | .success => st1
    | .httpError => { st1 with alerted := true }
    | .thrown _ => { st1 with alerted := true }
  { fin with isDownloading := false }

/-! Concrete fixtures used to instantiate the universally quantified
theorems below on specific inputs. -/

/-- Synthetic normalized text of three reconciling standard-form lines. -/
def exGoodText : List Char :=
  str "2023-06-01 PAY 10.00 100.00\n2023-06-02 PAY 5.00 105.00\n2023-06-03 PAY 7.00 112.00"

/-- The same three lines with the third balance deliberately off by 100.00. -/
def exBadText : List Char :=
  str "2023-06-01 PAY 10.00 100.00\n2023-06-02 PAY 5.00 105.00\n2023-06-03 PAY 7.00 212.00"

/-- Tokenized lines of `exGoodText`. -/
def exGoodLines : List (List Tok) := (splitLines exGoodText).map splitToks

/-- Tokenized lines of `exBadText`. -/
def exBadLines : List (List Tok) := (splitLines exBadText).map splitToks

/-- Candidate parsed from one standard example line. -/
def exCand (i d : Nat) (cr bal : Amount) : TransactionCandidate :=
  ⟨mkCanon 2023 6 d, str "PAY", none, some cr, some bal, i, 1⟩

/-- Engine result on the reconciling example text. -/
def exGoodResult : ParseResult :=
  ⟨[exCand 0 1 10000 100000, exCand 1 2 5000 105000, exCand 2 3 7000 112000],
   "standard", [("standard", 3), ("tabular", 0), ("line_by_line", 3)], [], false⟩

/-- Engine result on the example text with the third balance off by
100.00: still three candidates, exactly one warning referencing the
third pair. -/
def exBadResult : ParseResult :=
  ⟨[exCand 0 1 10000 100000, exCand 1 2 5000 105000, exCand 2 3 7000 212000],
   "standard", [("standard", 3), ("tabular", 0), ("line_by_line", 3)], [2], false⟩

/-- Page whose text layer is sufficient. -/
def sufficientPage : PageInput := ⟨str "ABCDEFGHIJKLMNOPQRSTUVWXYZ", none⟩

/-- Page with no text layer and no usable OCR outcome. -/
def blankPage : PageInput := ⟨[], none⟩

/-- Initial upload page state. -/
def st0 : UploadState := ⟨false, 0, "", none, none, none, [], false, true⟩

/-- Error body returned by a failed conversion. -/
def errBody : ResponseBody := ⟨true, some "boom", none, none, ⟨"s", 0, "", "", false⟩⟩

end UStmt

namespace UStmt

/-! Frontend handler theorems. -/

/-- C10: every invocation of `handleDownload` ends with `isDownloading`
reset to `false`, on the success path and on every failure path (the
reset lives in the `finally` block), so the download button never stays
permanently disabled after an attempt completes. -/
theorem c10_handleDownload_always_resets (st : DownloadState) (o : DownloadOutcome) :
    (handleDownload st o).isDownloading = false := by
  cases o <;> rfl

/-- C9: in `handleFileUpload`, every response with `ok` false or with the
body error flag set records an error message and returns before the
result state is set, so the stored result stays `none` on every error
path (including thrown network errors) and a result is displayed only
for ok responses whose body does not carry the error flag. -/
theorem c9_upload_error_paths :
    (∀ st ok body, ok = false ∨ body.error = true →
      (handleFileUpload st (.response ok body)).result = none ∧
      ((handleFileUpload st (.response ok body)).error).isSome = true) ∧
    (∀ st msg, (handleFileUpload st (.networkError msg)).result = none ∧
      ((handleFileUpload st (.networkError msg)).error).isSome = true) ∧
    (∀ st o, ((handleFileUpload st o).result).isSome = true →
      ∃ body, o = .response true body ∧ body.error = false) := by
  refine ⟨?_, ?_, ?_⟩
  · intro st ok body h
    obtain ⟨a1, a2, a3, a4, a5, a6, a7, a8, dm⟩ := st
    obtain ⟨be, bm, bs, bl, bp⟩ := body
    have hcond : (!ok || be) = true := by
      rcases h with h | h <;> simp_all
    cases bl <;> cases dm <;> simp [handleFileUpload, hcond]
  · intro st msg
    obtain ⟨a1, a2, a3, a4, a5, a6, a7, a8, dm⟩ := st
    simp [handleFileUpload]
  · intro st o h
    obtain ⟨a1, a2, a3, a4, a5, a6, a7, a8, dm⟩ := st
    cases o with
    | networkError msg => simp [handleFileUpload] at h
    | response ok body =>
      obtain ⟨be, bm, bs, bl, bp⟩ := body
      cases ok <;> cases be <;> cases bl <;> cases dm <;>
        simp [handleFileUpload] at h ⊢

/-- Witness for C9 at a concrete state and error response. -/
theorem c9_upload_error_paths_witness :
    (handleFileUpload st0 (.response false errBody)).result = none ∧
    ((handleFileUpload st0 (.response false errBody)).error).isSome = true :=
  c9_upload_error_paths.1 st0 false errBody (Or.inl rfl)

/-! Extractor theorems. -/

/-- Page-level extraction marks a page failed exactly when both the text
layer and the OCR outcome are below the sufficiency threshold. -/
theorem method_failed_iff (i : Nat) (p : PageInput) :
    (extractPage i p).method = .failed ↔ pageFails p = true := by
  obtain ⟨t, oc⟩ := p
  by_cases hs : sufficientText t
  · rcases oc with _ | ⟨ot, oconf⟩ <;> simp [extractPage, pageFails, hs]
  · rcases oc with _ | ⟨ot, oconf⟩
    · simp [extractPage, pageFails, hs]
    · by_cases hs2 : sufficientText ot <;> simp [extractPage, pageFails, hs, hs2]

/-- Document extraction reports all pages failed exactly when every page
input fails both extraction paths. -/
theorem allFailed_iff (doc : List PageInput) :
    allFailed (extractPages doc) = true ↔ ∀ p ∈ doc, pageFails p = true := by
  rw [allFailed, List.all_eq_true]
  constructor
  · intro h p hp
    have hp2 : p ∈ doc.enum.map Prod.snd := by
      rw [List.enum_map_snd]; exact hp
    rcases List.mem_map.mp hp2 with ⟨pair, hpair, rfl⟩
    have h2 := h (extractPage pair.1 pair.2)
      (List.mem_map_of_mem _ hpair)
    exact (method_failed_iff pair.1 pair.2).mp (by simpa using h2)
  · intro h o ho
    rcases List.mem_map.mp ho with ⟨pair, hpair, rfl⟩
    have hp : pair.2 ∈ doc := by
      rw [← List.enum_map_snd doc]
      exact List.mem_map_of_mem _ hpair
    simpa using (method_failed_iff pair.1 pair.2).mpr (h _ hp)

/-- C4: on a document whose every page has a sufficient text layer, the
Extractor marks every page `method=text` with confidence 1.0 and never
invokes OCR; moreover OCR is ever invoked on a page only after the
text-layer sufficiency check has failed, i.e. text-layer extraction is
always attempted first. -/
theorem c4_sufficient_text_layer :
    (∀ doc, (∀ p ∈ doc, sufficientText p.textLayer = true) →
      ∀ o ∈ extractPages doc,
        o.method = .text ∧ o.confidence = 1 ∧ o.ocrInvoked = false) ∧
    (∀ i p, (extractPage i p).ocrInvoked = true → sufficientText p.textLayer = false) := by
  constructor
  · intro doc hdoc o ho
    rcases List.mem_map.mp ho with ⟨pair, hpair, rfl⟩
    have hp : pair.2 ∈ doc := by
      rw [← List.enum_map_snd doc]
      exact List.mem_map_of_mem _ hpair
    have hs := hdoc pair.2 hp
    simp [extractPage, hs]
  · intro i p h
    by_cases hs : sufficientText p.textLayer
    · simp [extractPage, hs] at h
    · simpa using hs

/-- Witness for C4 on a one-page document with a sufficient text layer. -/
theorem c4_sufficient_text_layer_witness :
    (extractPage 0 sufficientPage).method = .text ∧
    (extractPage 0 sufficientPage).confidence = 1 ∧
    (extractPage 0 sufficientPage).ocrInvoked = false :=
  c4_sufficient_text_layer.1 [sufficientPage] (by decide)
    (extractPage 0 sufficientPage) (by decide)

/-- C5: the Extractor raises `NoTextFound` exactly when every page fails
both text-layer and OCR extraction; when any page survives, extraction
succeeds and still carries an entry for every page (a single failed page
never aborts the document); and on an all-failed document the failure is
raised for any parsing stage whatsoever, i.e. before the ParsingEngine
is ever invoked. -/
theorem c5_noTextFound_iff_all_pages_fail :
    ∀ doc : List PageInput,
      ((extractDocument doc = .error .noTextFound) ↔ ∀ p ∈ doc, pageFails p = true) ∧
      (∀ outs, extractDocument doc = .ok outs → outs.length = doc.length) ∧
      (∀ parseFn, (∀ p ∈ doc, pageFails p = true) →
        pipelineWith parseFn doc = .error (.extract .noTextFound)) := by
  intro doc
  have h1 : (extractDocument doc = .error .noTextFound) ↔
      ∀ p ∈ doc, pageFails p = true := by
    rw [← allFailed_iff]
    unfold extractDocument
    by_cases h : allFailed (extractPages doc) <;> simp [h]
  refine ⟨h1, ?_, ?_⟩
  · intro outs h
    unfold extractDocument at h
    by_cases hf : allFailed (extractPages doc)
    · simp [hf] at h
    · simp only [hf, Bool.false_eq_true, if_false, Except.ok.injEq] at h
      subst h
      simp [extractPages]
  · intro parseFn h
    have h2 := h1.mpr h
    unfold pipelineWith
    rw [h2]

/-- Witness for C5 on concrete documents: an all-failed one-page document
and a two-page document with one surviving page. -/
theorem c5_noTextFound_iff_all_pages_fail_witness :
    (extractDocument [blankPage] = .error .noTextFound) ∧
    pipelineWith parseNormalized [blankPage] = .error (.extract .noTextFound) ∧
    (extractPages [blankPage, sufficientPage]).length = 2 :=
  ⟨((c5_noTextFound_iff_all_pages_fail [blankPage]).1).mpr (by decide),
   (c5_noTextFound_iff_all_pages_fail [blankPage]).2.2 parseNormalized (by decide),
   (c5_noTextFound_iff_all_pages_fail [blankPage, sufficientPage]).2.1
     (extractPages [blankPage, sufficientPage]) (by rfl)⟩

end UStmt

namespace UStmt

/-! Parsing-engine theorems. -/

/-- Every candidate built through the smart constructor has at most one
of the debit/credit fields populated. -/
theorem mkCand_dc {date desc : Tok} {neg : Bool} {v : Amount}
    {bal : Option Amount} {i : Nat} {conf : ℚ} :
    (mkCand date desc neg v bal i conf).debit = none ∨
      (mkCand date desc neg v bal i conf).credit = none := by
  cases neg <;> simp [mkCand, classifyDC]

/-- Standard-strategy line candidates populate at most one of
debit/credit. -/
theorem stdLine_dc {i : Nat} {l : List Tok} {c : TransactionCandidate}
    (h : stdLine i l = some c) : c.debit = none ∨ c.credit = none := by
  unfold stdLine at h
  repeat' split at h
  all_goals first
    | exact Option.some.inj h ▸ mkCand_dc
    | simp at h

/-- Tabular-strategy line candidates populate at most one of
debit/credit. -/
theorem tabLine_dc {i : Nat} {l : List Tok} {c : TransactionCandidate}
    (h : tabLine i l = some c) : c.debit = none ∨ c.credit = none := by
  unfold tabLine at h
  repeat' split at h
  all_goals first
    | exact Option.some.inj h ▸ mkCand_dc
    | simp at h

/-- Fallback-strategy line candidates populate at most one of
debit/credit. -/
theorem lblLine_dc {i : Nat} {l : List Tok} {c : TransactionCandidate}
    (h : lblLine i l = some c) : c.debit = none ∨ c.credit = none := by
  unfold lblLine at h
  repeat' split at h
  all_goals first
    | exact Option.some.inj h ▸ mkCand_dc
    | simp at h

/-- Candidates of a per-line strategy all come from its line parser. -/
theorem mem_runLines {f : Nat → List Tok → Option TransactionCandidate}
    {lines : List (List Tok)} {c : TransactionCandidate}
    (h : c ∈ runLines f lines) : ∃ i l, f i l = some c := by
  unfold runLines at h
  rcases List.mem_filterMap.mp h with ⟨⟨i, l⟩, _, hf⟩
  exact ⟨i, l, hf⟩

/-- C1: for every strategy of the chain and every input, no produced
TransactionCandidate has both debit and credit set: at most one of the
two fields is populated per candidate. -/
theorem c1_debit_credit_exclusive :
    ∀ s ∈ allStrategies, ∀ lines, ∀ c ∈ s.2 lines,
      c.debit = none ∨ c.credit = none := by
  intro s hs lines c hc
  have hs3 : s = ("standard", standardStrategy) ∨
      s = ("tabular", tabularStrategy) ∨
      s = ("line_by_line", lineByLineStrategy) := by
    simpa [allStrategies] using hs
  rcases hs3 with rfl | rfl | rfl
  · rcases mem_runLines hc with ⟨i, l, hf⟩
    exact stdLine_dc hf
  · rcases mem_runLines hc with ⟨i, l, hf⟩
    exact tabLine_dc hf
  · rcases mem_runLines hc with ⟨i, l, hf⟩
    exact lblLine_dc hf

/-- Witness for C1 on a concrete candidate produced by the standard
strategy from the example text. -/
theorem c1_debit_credit_exclusive_witness :
    (exCand 0 1 10000 100000).debit = none ∨
      (exCand 0 1 10000 100000).credit = none :=
  c1_debit_credit_exclusive ("standard", standardStrategy)
    (by simp [allStrategies]) exGoodLines (exCand 0 1 10000 100000) (by decide)

/-- C7: when every strategy yields zero candidates the engine raises the
hard failure `NoTransactionsParsed`, and its diagnostics carry a
zero-count entry for every attempted strategy name. -/
theorem c7_noTransactionsParsed :
    ∀ lines, (∀ r ∈ runAll lines, r.2 = []) →
      parsingEngine lines =
        .error ⟨.noTransactionsParsed, strategyCounts (runAll lines)⟩ ∧
      strategyCounts (runAll lines) =
        [("standard", 0), ("tabular", 0), ("line_by_line", 0)] := by
  intro lines h
  have hall : (runAll lines).all (fun r => r.2.isEmpty) = true := by
    rw [List.all_eq_true]
    intro r hr
    simpa [List.isEmpty_iff] using h r hr
  constructor
  · unfold parsingEngine
    simp only [hall, if_true]
  · have h1 := h ("standard", standardStrategy lines) (by simp [runAll, allStrategies])
    have h2 := h ("tabular", tabularStrategy lines) (by simp [runAll, allStrategies])
    have h3 := h ("line_by_line", lineByLineStrategy lines) (by simp [runAll, allStrategies])
    simp only at h1 h2 h3
    simp [strategyCounts, runAll, allStrategies, h1, h2, h3]

/-- Witness for C7 on the empty line list. -/
theorem c7_noTransactionsParsed_witness :
    parsingEngine [] =
      .error ⟨.noTransactionsParsed,
        [("standard", 0), ("tabular", 0), ("line_by_line", 0)]⟩ := by
  have h := c7_noTransactionsParsed [] (by decide)
  rw [← h.2]
  exact h.1

end UStmt

namespace UStmt

/-- A strategy result selected by `pickAccepted` is the first accepted
one in chain order. -/
theorem pickAccepted_some :
    ∀ {rs : List (String × List TransactionCandidate)}
      {r : String × List TransactionCandidate},
      pickAccepted rs = some r →
      ∃ i, rs.get? i = some r ∧ accepted r.2 = true ∧
        ∀ j r2, j < i → rs.get? j = some r2 → accepted r2.2 = false := by
  intro rs
  induction rs with
  | nil => intro r h; simp [pickAccepted] at h
  | cons a rest ih =>
    intro r h
    unfold pickAccepted at h
    by_cases ha : accepted a.2
    · simp only [ha, if_true, Option.some.injEq] at h
      subst h
      exact ⟨0, by simp, ha, by intro j r2 hj; omega⟩
    · simp only [ha, Bool.false_eq_true, if_false] at h
      rcases ih h with ⟨i, h1, h2, h3⟩
      refine ⟨i + 1, by simpa using h1, h2, ?_⟩
      intro j r2 hj hg
      cases j with
      | zero =>
        simp only [List.get?_cons_zero, Option.some.injEq] at hg
        rw [← hg]
        simpa using ha
      | succ k => exact h3 k r2 (by omega) (by simpa using hg)

/-- When `pickAccepted` selects nothing, no strategy result is accepted. -/
theorem pickAccepted_none :
    ∀ {rs : List (String × List TransactionCandidate)},
      pickAccepted rs = none → ∀ r ∈ rs, accepted r.2 = false := by
  intro rs
  induction rs with
  | nil => intro _ r hr; simp at hr
  | cons a rest ih =>
    intro h r hr
    unfold pickAccepted at h
    by_cases ha : accepted a.2
    · simp [ha] at h
    · rcases List.mem_cons.mp hr with rfl | hr2
      · simpa using ha
      · exact ih (by simpa [ha] using h) r hr2

/-- The highest-count selection is one of the strategy results. -/
theorem bestByCount_mem :
    ∀ rs : List (String × List TransactionCandidate),
      rs ≠ [] → bestByCount rs ∈ rs
  | [], h => absurd rfl h
  | [r], _ => by simp [bestByCount]
  | r :: r2 :: rest, _ => by
    have ih := bestByCount_mem (r2 :: rest) (by simp)
    unfold bestByCount
    by_cases hlt : r.2.length < (bestByCount (r2 :: rest)).2.length
    · simpa [hlt] using List.mem_cons_of_mem r ih
    · simp [hlt]

/-- The highest-count selection dominates every strategy result's count. -/
theorem bestByCount_max :
    ∀ rs : List (String × List TransactionCandidate),
      ∀ r ∈ rs, r.2.length ≤ (bestByCount rs).2.length
  | [] => by simp
  | [a] => by
    intro r hr
    rcases List.mem_singleton.mp hr with rfl
    simp [bestByCount]
  | a :: a2 :: rest => by
    intro r hr
    have ih := bestByCount_max (a2 :: rest)
    unfold bestByCount
    by_cases hlt : a.2.length < (bestByCount (a2 :: rest)).2.length
    · simp only [hlt, if_true]
      rcases List.mem_cons.mp hr with rfl | h2
      · omega
      · exact ih r h2
    · simp only [hlt, if_false]
      rcases List.mem_cons.mp hr with rfl | h2
      · exact Nat.le_refl _
      · have := ih r h2
        omega

/-- Inversion of a successful engine run: the result comes either from
the first accepted strategy, unflagged, or from the highest-count
strategy flagged low-confidence; in both cases warnings and counts are
the reconciliation warnings and the per-strategy counts. -/
theorem parsingEngine_ok
    {lines : List (List Tok)} {pr : ParseResult}
    (h : parsingEngine lines = .ok pr) :
    (pickAccepted (runAll lines) = some (pr.strategyUsed, pr.transactions) ∧
      pr.lowConfidence = false ∧ pr.warnings = reconWarnings pr.transactions ∧
      pr.counts = strategyCounts (runAll lines)) ∨
    (pickAccepted (runAll lines) = none ∧
      (pr.strategyUsed, pr.transactions) = bestByCount (runAll lines) ∧
      pr.lowConfidence = true ∧ pr.warnings = reconWarnings pr.transactions ∧
      pr.counts = strategyCounts (runAll lines)) := by
  unfold parsingEngine at h
  by_cases hall : (runAll lines).all (fun r => r.2.isEmpty)
  · simp [hall] at h
  · simp only [hall, Bool.false_eq_true, if_false] at h
    rcases hpick : pickAccepted (runAll lines) with _ | r
    · rw [hpick] at h
      simp only [Except.ok.injEq] at h
      right
      subst h
      exact ⟨rfl, rfl, rfl, rfl, rfl⟩
    · rw [hpick] at h
      simp only [Except.ok.injEq] at h
      left
      subst h
      exact ⟨by simp, rfl, rfl, rfl⟩

/-- C3: strategies run in the fixed order standard, tabular,
line-by-line; acceptance means candidate count at least 1 and at least
half the checked consecutive pairs reconciling; an unflagged result is
the first accepted strategy in that order, and a `low_confidence` result
is returned exactly when no strategy is accepted and then carries the
highest candidate count. -/
theorem c3_selection_rule :
    ∀ lines pr, parsingEngine lines = .ok pr →
      ((runAll lines).map Prod.fst = ["standard", "tabular", "line_by_line"]) ∧
      (∀ cs, accepted cs = true ↔
        1 ≤ cs.length ∧ checkedCount cs ≤ 2 * passedCount cs) ∧
      (pr.lowConfidence = false →
        ∃ i, (runAll lines).get? i = some (pr.strategyUsed, pr.transactions) ∧
          accepted pr.transactions = true ∧
          ∀ j r, j < i → (runAll lines).get? j = some r → accepted r.2 = false) ∧
      (pr.lowConfidence = true →
        (pr.strategyUsed, pr.transactions) ∈ runAll lines ∧
        (∀ r ∈ runAll lines, accepted r.2 = false) ∧
        ∀ r ∈ runAll lines, r.2.length ≤ pr.transactions.length) := by
  intro lines pr h
  refine ⟨by simp [runAll, allStrategies], ?_, ?_, ?_⟩
  · intro cs
    simp [accepted, passOK, Bool.and_eq_true, decide_eq_true_iff]
  · intro hlow
    rcases parsingEngine_ok h with ⟨hp, _, _, _⟩ | ⟨_, _, hl, _, _⟩
    · rcases pickAccepted_some hp with ⟨i, h1, h2, h3⟩
      exact ⟨i, h1, h2, h3⟩
    · rw [hl] at hlow
      exact absurd hlow (by simp)
  · intro hlow
    rcases parsingEngine_ok h with ⟨_, hl, _, _⟩ | ⟨hp, hb, _, _, _⟩
    · rw [hl] at hlow
      exact absurd hlow (by simp)
    · have hne : runAll lines ≠ [] := by simp [runAll, allStrategies]
      refine ⟨?_, pickAccepted_none hp, ?_⟩
      · rw [hb]
        exact bestByCount_mem _ hne
      · intro r hr
        have := bestByCount_max (runAll lines) r hr
        have h2 : pr.transactions = (bestByCount (runAll lines)).2 := by
          rw [← hb]
        rw [h2]
        exact this

/-- Witness for C3 on the example text: the engine accepts the standard
strategy first, unflagged. -/
theorem c3_selection_rule_witness :
    (runAll exBadLines).map Prod.fst = ["standard", "tabular", "line_by_line"] ∧
    (accepted exBadResult.transactions = true ↔
      1 ≤ exBadResult.transactions.length ∧
      checkedCount exBadResult.transactions ≤ 2 * passedCount exBadResult.transactions) :=
  ⟨(c3_selection_rule exBadLines exBadResult (by rfl)).1,
   (c3_selection_rule exBadLines exBadResult (by rfl)).2.1 exBadResult.transactions⟩

end UStmt

namespace UStmt

/-- Index lookup in a tail. -/
theorem getElem?_tail_eq (cs : List TransactionCandidate) (j : Nat) :
    cs.tail[j]? = cs[j + 1]? := by
  cases cs with
  | nil => simp
  | cons a rest => simp

/-- C6: the reconciliation pass never drops or modifies candidates (an
ok engine result returns some strategy's full candidate list and its
warnings are exactly the reconciliation warnings of that list); a pair
index is warned exactly when both balances are present and the balance
equation fails beyond the fixed-point tolerance 0.005; and on the
concrete three-line example the engine returns 3 candidates with zero
warnings, while the variant with the third balance off by 100.00 returns
3 candidates and exactly one warning referencing the third pair. -/
theorem c6_reconciliation_warnings :
    (∀ lines pr, parsingEngine lines = .ok pr →
      pr.warnings = reconWarnings pr.transactions ∧
      ∃ r ∈ runAll lines, pr.transactions = r.2) ∧
    (∀ cs i, i ∈ reconWarnings cs ↔ ∃ prev cur b0 b1,
      cs[i - 1]? = some prev ∧ cs[i]? = some cur ∧ 1 ≤ i ∧
      prev.balance = some b0 ∧ cur.balance = some b1 ∧
      ¬ (b1 - (b0 + amt0 cur.credit - amt0 cur.debit)).natAbs < 5) ∧
    parseNormalized exBadText = .ok exBadResult ∧
    parseNormalized exGoodText = .ok exGoodResult := by
  refine ⟨?_, ?_, by rfl, by rfl⟩
  · intro lines pr h
    rcases parsingEngine_ok h with ⟨hp, _, hw, _⟩ | ⟨_, hb, _, hw, _⟩
    · refine ⟨hw, (pr.strategyUsed, pr.transactions), ?_, rfl⟩
      rcases pickAccepted_some hp with ⟨i, h1, _, _⟩
      exact List.get?_mem h1
    · refine ⟨hw, (pr.strategyUsed, pr.transactions), ?_, rfl⟩
      rw [hb]
      exact bestByCount_mem _ (by simp [runAll, allStrategies])
  · intro cs i
    constructor
    · intro h
      unfold reconWarnings at h
      rcases List.mem_filterMap.mp h with ⟨⟨j, prev, cur⟩, hmem, hif⟩
      by_cases hc : pairChecked prev cur && !pairOk prev cur
      case neg => simp [hc] at hif
      simp only [hc, if_true, Option.some.injEq] at hif
      subst hif
      rw [Bool.and_eq_true] at hc
      obtain ⟨hch, hok⟩ := hc
      rw [pairChecked, Bool.and_eq_true] at hch
      obtain ⟨hb0, hb1⟩ := hch
      rcases Option.isSome_iff_exists.mp hb0 with ⟨b0, hb0e⟩
      rcases Option.isSome_iff_exists.mp hb1 with ⟨b1, hb1e⟩
      have hz : (cs.zip cs.tail)[j]? = some (prev, cur) := by
        simpa [consecPairs] using List.mem_enum_iff_getElem?.mp hmem
      have hz2 := List.getElem?_zip_eq_some.mp hz
      refine ⟨prev, cur, b0, b1, ?_, ?_, by omega, hb0e, hb1e, ?_⟩
      · simpa using hz2.1
      · rw [← getElem?_tail_eq]
        exact hz2.2
      · have : pairOk prev cur = false := by simpa using hok
        rw [pairOk, hb0e, hb1e] at this
        simpa using this
    · intro h
      rcases h with ⟨prev, cur, b0, b1, h1, h2, hi, hb0, hb1, hne⟩
      obtain ⟨j, rfl⟩ : ∃ j, i = j + 1 := ⟨i - 1, by omega⟩
      unfold reconWarnings
      apply List.mem_filterMap.mpr
      refine ⟨(j, prev, cur), ?_, ?_⟩
      · apply List.mem_enum_iff_getElem?.mpr
        show (consecPairs cs)[j]? = some (prev, cur)
        rw [consecPairs]
        apply List.getElem?_zip_eq_some.mpr
        constructor
        · simpa using h1
        · rw [getElem?_tail_eq]
          exact h2
      · have hchecked : pairChecked prev cur = true := by
          simp [pairChecked, hb0, hb1]
        have hok : pairOk prev cur = false := by
          rw [pairOk, hb0, hb1]
          simpa using hne
        simp [hchecked, hok]

/-- Witness for C6: the concrete off-by-100 example result carries
exactly the reconciliation warnings of its own candidate list. -/
theorem c6_reconciliation_warnings_witness :
    exBadResult.warnings = reconWarnings exBadResult.transactions ∧
    ∃ r ∈ runAll exBadLines, exBadResult.transactions = r.2 :=
  c6_reconciliation_warnings.1 exBadLines exBadResult (by rfl)

end UStmt

namespace UStmt

/-! Normalizer theory: splitting and joining round-trips. -/

/-- Mapping a function that fixes every element of a list is the
identity on it. -/
theorem map_id_of_mem {α : Type} {l : List α} {f : α → α}
    (h : ∀ a ∈ l, f a = a) : l.map f = l := by
  have := List.map_congr_left (g := id) h
  simpa using this

/-- Fragments produced by `splitOnP` consist of characters of the input
that do not satisfy the separator predicate. -/
theorem splitOnP_sub {α : Type} [DecidableEq α] (p : α → Bool) :
    ∀ (l t : List α), t ∈ List.splitOnP p l → ∀ c ∈ t, c ∈ l ∧ p c = false := by
  intro l
  induction l with
  | nil =>
    intro t ht c hc
    rw [List.splitOnP_nil] at ht
    rcases List.mem_singleton.mp ht with rfl
    simp at hc
  | cons x xs ih =>
    intro t ht c hc
    rw [List.splitOnP_cons] at ht
    by_cases hx : p x
    · rw [if_pos hx] at ht
      rcases List.mem_cons.mp ht with rfl | ht2
      · simp at hc
      · rcases ih t ht2 c hc with ⟨h1, h2⟩
        exact ⟨List.mem_cons_of_mem _ h1, h2⟩
    · rw [if_neg hx] at ht
      rcases hsp : xs.splitOnP p with _ | ⟨hd, tl⟩
      · exact absurd hsp (List.splitOnP_ne_nil p xs)
      · rw [hsp] at ht
        simp only [List.modifyHead] at ht
        rcases List.mem_cons.mp ht with rfl | ht2
        · rcases List.mem_cons.mp hc with rfl | hc2
          · exact ⟨List.mem_cons_self _ _, by simpa using hx⟩
          · rcases ih hd (by rw [hsp]; exact List.mem_cons_self _ _) c hc2 with ⟨h1, h2⟩
            exact ⟨List.mem_cons_of_mem _ h1, h2⟩
        · rcases ih t (by rw [hsp]; exact List.mem_cons_of_mem _ ht2) c hc with ⟨h1, h2⟩
          exact ⟨List.mem_cons_of_mem _ h1, h2⟩

/-- Fragments of `splitOn` consist of input characters different from the
separator. -/
theorem splitOn_sub {l t : List Char} {sep : Char}
    (ht : t ∈ l.splitOn sep) : ∀ c ∈ t, c ∈ l ∧ c ≠ sep := by
  intro c hc
  rcases splitOnP_sub (fun c => c == sep) l t ht c hc with ⟨h1, h2⟩
  exact ⟨h1, by simpa using h2⟩

/-- Intercalating a one-element separator over two or more fragments. -/
theorem intercalate_cons_cons {sep : Char} (x y : List Char) (l : List (List Char)) :
    List.intercalate [sep] (x :: y :: l) = x ++ sep :: List.intercalate [sep] (y :: l) := by
  simp [List.intercalate, List.intersperse_cons_cons]

/-- Intercalating over a single fragment. -/
theorem intercalate_single {sep : Char} (x : List Char) :
    List.intercalate [sep] [x] = x := by
  simp [List.intercalate]

/-- Characters of an intercalation are the separator or characters of a
fragment. -/
theorem mem_intercalate {sep : Char} :
    ∀ (ls : List (List Char)) (c : Char), c ∈ List.intercalate [sep] ls →
      c = sep ∨ ∃ l ∈ ls, c ∈ l
  | [], c => by intro h; simp [List.intercalate] at h
  | [x], c => by
    intro h
    rw [intercalate_single] at h
    exact Or.inr ⟨x, List.mem_singleton.mpr rfl, h⟩
  | x :: y :: ls, c => by
    intro h
    rw [intercalate_cons_cons] at h
    rcases List.mem_append.mp h with hx | hrest
    · exact Or.inr ⟨x, List.mem_cons_self _ _, hx⟩
    · rcases List.mem_cons.mp hrest with rfl | h2
      · exact Or.inl rfl
      · rcases mem_intercalate (y :: ls) c h2 with h3 | ⟨l, hl, hcl⟩
        · exact Or.inl h3
        · exact Or.inr ⟨l, List.mem_cons_of_mem _ hl, hcl⟩

/-- Re-tokenizing a joined token list recovers it, provided the tokens
are nonempty and space-free. -/
theorem splitToks_joinToks {ts : List Tok}
    (h : ∀ t ∈ ts, t ≠ [] ∧ ∀ c ∈ t, c ≠ ' ') :
    splitToks (joinToks ts) = ts := by
  rcases ts with _ | ⟨t, rest⟩
  · rfl
  · have hne : (t :: rest) ≠ [] := by simp
    have hsp : ∀ l ∈ t :: rest, ' ' ∉ l := by
      intro l hl hmem
      exact (h l hl).2 ' ' hmem rfl
    rw [joinToks, splitToks, List.splitOn_intercalate _ ' ' hsp hne]
    apply List.filter_eq_self.mpr
    intro a ha
    have := (h a ha).1
    simpa [List.isEmpty_iff] using this

/-- Re-splitting joined lines recovers them, provided the lines are
newline-free and the line list is nonempty. -/
theorem splitLines_joinLines {ls : List (List Char)}
    (hne : ls ≠ []) (h : ∀ l ∈ ls, '\n' ∉ l) :
    splitLines (joinLines ls) = ls := by
  rw [joinLines, splitLines, List.splitOn_intercalate _ '\n' h hne]

end UStmt

namespace UStmt

/-! Character-class facts. -/

/-- The digit character is one of the ten digits. -/
theorem digitChar_cases (n : Nat) :
    digitChar n = '0' ∨ digitChar n = '1' ∨ digitChar n = '2' ∨ digitChar n = '3' ∨
    digitChar n = '4' ∨ digitChar n = '5' ∨ digitChar n = '6' ∨ digitChar n = '7' ∨
    digitChar n = '8' ∨ digitChar n = '9' := by
  unfold digitChar
  split_ifs <;> tauto

/-- Bundled shape facts about digit characters used throughout the
normalizer proofs. -/
theorem digitChar_facts (n : Nat) :
    (digitChar n).isDigit = true ∧ digitChar n ≠ '-' ∧ digitChar n ≠ '/' ∧
    digitChar n ≠ ' ' ∧ digitChar n ≠ '\n' ∧ fixChar (digitChar n) = digitChar n ∧
    oFix (digitChar n) = digitChar n ∧ numishChar (digitChar n) = true := by
  rcases digitChar_cases n with h | h | h | h | h | h | h | h | h | h <;>
    rw [h] <;> exact ⟨rfl, by decide, by decide, by decide, by decide, rfl, rfl, rfl⟩

/-- Structure of `fixChar` outputs. -/
theorem fixChar_out (c : Char) :
    fixChar c = c ∨ fixChar c = ' ' ∨ fixChar c = '"' := by
  unfold fixChar
  split_ifs <;> tauto

/-- Encoding repair is idempotent characterwise. -/
theorem fixChar_idem (c : Char) : fixChar (fixChar c) = fixChar c := by
  rcases fixChar_out c with h | h | h <;> rw [h]
  · exact h
  · decide
  · decide

/-- OCR character correction outputs. -/
theorem oFix_out (c : Char) : oFix c = '0' ∨ oFix c = c := by
  unfold oFix
  split_ifs <;> tauto

/-- OCR character correction is idempotent characterwise. -/
theorem oFix_idem (c : Char) : oFix (oFix c) = oFix c := by
  rcases oFix_out c with h | h <;> rw [h]
  · decide
  · exact h

/-! Canonical-date-token facts. -/

/-- Characters of `mkCanon` are dashes or digit characters. -/
theorem mem_mkCanon {c : Char} {y m d : Nat} (hc : c ∈ mkCanon y m d) :
    c = '-' ∨ ∃ k, c = digitChar k := by
  simp only [mkCanon, pad4, pad2, List.mem_append, List.mem_cons,
    List.mem_singleton, List.not_mem_nil, or_false] at hc
  have h2 : c = '-' ∨ c = digitChar (y / 1000) ∨ c = digitChar (y / 100) ∨
      c = digitChar (y / 10) ∨ c = digitChar y ∨ c = digitChar (m / 10) ∨
      c = digitChar m ∨ c = digitChar (d / 10) ∨ c = digitChar d := by tauto
  rcases h2 with h | h | h | h | h | h | h | h | h
  · exact Or.inl h
  all_goals exact Or.inr ⟨_, h⟩

/-- Length of a canonical date token. -/
theorem mkCanon_length (y m d : Nat) : (mkCanon y m d).length = 10 := by
  simp [mkCanon, pad4, pad2]

/-- The canonical date token is not a day token. -/
theorem mkCanon_not_day (y m d : Nat) : isDayTok (mkCanon y m d) = false := by
  unfold isDayTok
  rw [mkCanon_length]
  rfl

/-- The canonical date token is not a four-digit-year token. -/
theorem mkCanon_not_year (y m d : Nat) : isYearTok (mkCanon y m d) = false := by
  unfold isYearTok
  rw [mkCanon_length]
  rfl

/-- Month-name tokens are exactly the twelve three-letter names. -/
theorem isMonthTok_name {t : Tok} (h : isMonthTok t = true) :
    t = str "Jan" ∨ t = str "Feb" ∨ t = str "Mar" ∨ t = str "Apr" ∨
    t = str "May" ∨ t = str "Jun" ∨ t = str "Jul" ∨ t = str "Aug" ∨
    t = str "Sep" ∨ t = str "Oct" ∨ t = str "Nov" ∨ t = str "Dec" := by
  unfold isMonthTok monthNum at h
  by_cases h1 : (t == str "Jan") = true
  · have := eq_of_beq h1
    tauto
  rw [if_neg h1] at h
  by_cases h2 : (t == str "Feb") = true
  · have := eq_of_beq h2
    tauto
  rw [if_neg h2] at h
  by_cases h3 : (t == str "Mar") = true
  · have := eq_of_beq h3
    tauto
  rw [if_neg h3] at h
  by_cases h4 : (t == str "Apr") = true
  · have := eq_of_beq h4
    tauto
  rw [if_neg h4] at h
  by_cases h5 : (t == str "May") = true
  · have := eq_of_beq h5
    tauto
  rw [if_neg h5] at h
  by_cases h6 : (t == str "Jun") = true
  · have := eq_of_beq h6
    tauto
  rw [if_neg h6] at h
  by_cases h7 : (t == str "Jul") = true
  · have := eq_of_beq h7
    tauto
  rw [if_neg h7] at h
  by_cases h8 : (t == str "Aug") = true
  · have := eq_of_beq h8
    tauto
  rw [if_neg h8] at h
  by_cases h9 : (t == str "Sep") = true
  · have := eq_of_beq h9
    tauto
  rw [if_neg h9] at h
  by_cases h10 : (t == str "Oct") = true
  · have := eq_of_beq h10
    tauto
  rw [if_neg h10] at h
  by_cases h11 : (t == str "Nov") = true
  · have := eq_of_beq h11
    tauto
  rw [if_neg h11] at h
  by_cases h12 : (t == str "Dec") = true
  · have := eq_of_beq h12
    tauto
  rw [if_neg h12] at h
  exact absurd h (by decide)

/-- The canonical date token is not a month-name token. -/
theorem mkCanon_not_month (y m d : Nat) : isMonthTok (mkCanon y m d) = false := by
  cases hb : isMonthTok (mkCanon y m d)
  · rfl
  · rcases isMonthTok_name hb with h | h | h | h | h | h | h | h | h | h | h | h <;>
      exact absurd (congrArg List.length h) (by rw [mkCanon_length] ; decide)

/-- A month-name token is never a day token. -/
theorem isMonthTok_not_day {t : Tok} (h : isMonthTok t = true) :
    isDayTok t = false := by
  rcases isMonthTok_name h with h | h | h | h | h | h | h | h | h | h | h | h <;>
    rw [h] <;> decide

end UStmt

namespace UStmt

/-! Single-token rewrite facts. -/

/-- Characters of two-digit numerals are digit characters. -/
theorem mem_pad2 {x : Char} {n : Nat} (h : x ∈ pad2 n) : ∃ k, x = digitChar k := by
  simp only [pad2, List.mem_cons, List.mem_singleton, List.not_mem_nil, or_false] at h
  rcases h with rfl | rfl
  · exact ⟨_, rfl⟩
  · exact ⟨_, rfl⟩

/-- Characters of four-digit numerals are digit characters. -/
theorem mem_pad4 {x : Char} {n : Nat} (h : x ∈ pad4 n) : ∃ k, x = digitChar k := by
  simp only [pad4, List.mem_cons, List.mem_singleton, List.not_mem_nil, or_false] at h
  rcases h with rfl | rfl | rfl | rfl
  · exact ⟨_, rfl⟩
  · exact ⟨_, rfl⟩
  · exact ⟨_, rfl⟩
  · exact ⟨_, rfl⟩

/-- Splitting a canonical date token at slashes leaves it whole. -/
theorem mkCanon_splitOn_slash (y m d : Nat) :
    (mkCanon y m d).splitOn '/' = [mkCanon y m d] := by
  apply List.splitOnP_eq_single
  intro x hx
  rcases mem_mkCanon hx with rfl | ⟨k, rfl⟩
  · decide
  · simpa using (digitChar_facts k).2.2.1

/-- Splitting a canonical date token at dashes yields its three numeral
segments. -/
theorem mkCanon_splitOn_dash (y m d : Nat) :
    (mkCanon y m d).splitOn '-' = [pad4 y, pad2 m, pad2 d] := by
  have h4 : ∀ x ∈ pad4 y, ¬((x == '-') = true) := by
    intro x hx
    rcases mem_pad4 hx with ⟨k, rfl⟩
    simpa using (digitChar_facts k).2.1
  have h2 : ∀ x ∈ pad2 m, ¬((x == '-') = true) := by
    intro x hx
    rcases mem_pad2 hx with ⟨k, rfl⟩
    simpa using (digitChar_facts k).2.1
  have h2d : ∀ x ∈ pad2 d, ¬((x == '-') = true) := by
    intro x hx
    rcases mem_pad2 hx with ⟨k, rfl⟩
    simpa using (digitChar_facts k).2.1
  show (pad4 y ++ '-' :: (pad2 m ++ '-' :: pad2 d)).splitOnP (fun c => c == '-') = _
  rw [List.splitOnP_first _ _ h4 '-' (by decide) _,
    List.splitOnP_first _ _ h2 '-' (by decide) _,
    List.splitOnP_eq_single _ _ h2d]

/-- Four-digit numerals are not day tokens. -/
theorem pad4_not_day (n : Nat) : isDayTok (pad4 n) = false := by
  unfold isDayTok
  simp [pad4]

/-- The single-token date rewrite leaves canonical date tokens unchanged. -/
theorem rw1_mkCanon (y m d : Nat) : rw1 (mkCanon y m d) = mkCanon y m d := by
  unfold rw1
  rw [mkCanon_splitOn_slash, mkCanon_splitOn_dash]
  simp [pad4_not_day]

/-- The single-token rewrite either keeps its input or produces a
canonical date token. -/
theorem rw1_cases (t : Tok) : rw1 t = t ∨ ∃ y m d, rw1 t = mkCanon y m d := by
  unfold rw1
  split
  · split_ifs <;> first | exact Or.inl rfl | exact Or.inr ⟨_, _, _, rfl⟩
  · split
    · split_ifs <;> first | exact Or.inl rfl | exact Or.inr ⟨_, _, _, rfl⟩
    · exact Or.inl rfl

/-- The single-token rewrite is idempotent. -/
theorem rw1_idem (t : Tok) : rw1 (rw1 t) = rw1 t := by
  rcases rw1_cases t with h | ⟨y, m, d, h⟩ <;> rw [h]
  · exact h
  · exact rw1_mkCanon y m d

/-- Characters of an OCR-corrected token are the corrected digit or
characters of the input. -/
theorem mem_ocrFixTok {c : Char} {t : Tok} (h : c ∈ ocrFixTok t) :
    c = '0' ∨ c ∈ t := by
  unfold ocrFixTok at h
  split at h
  · rcases List.mem_map.mp h with ⟨c0, hc0, rfl⟩
    rcases oFix_out c0 with h2 | h2 <;> rw [h2]
    · exact Or.inl rfl
    · exact Or.inr hc0
  · exact Or.inr h

/-- OCR token correction preserves length. -/
theorem ocrFixTok_length (t : Tok) : (ocrFixTok t).length = t.length := by
  unfold ocrFixTok
  split <;> simp

/-- OCR token correction is idempotent. -/
theorem ocrFixTok_idem (t : Tok) : ocrFixTok (ocrFixTok t) = ocrFixTok t := by
  have hmap : (t.map oFix).map oFix = t.map oFix := by
    rw [List.map_map]
    exact List.map_congr_left (fun a _ => oFix_idem a)
  by_cases h : numish t = true
  · have ht : ocrFixTok t = t.map oFix := by rw [ocrFixTok, if_pos h]
    rw [ht, ocrFixTok]
    split_ifs with h2
    · exact hmap
    · rfl
  · have ht : ocrFixTok t = t := by rw [ocrFixTok, if_neg h]
    rw [ht]
    exact ht

/-- OCR token correction leaves canonical date tokens unchanged. -/
theorem ocrFixTok_mkCanon (y m d : Nat) :
    ocrFixTok (mkCanon y m d) = mkCanon y m d := by
  unfold ocrFixTok
  split
  · apply map_id_of_mem
    intro a ha
    rcases mem_mkCanon ha with rfl | ⟨k, rfl⟩
    · decide
    · exact (digitChar_facts k).2.2.2.2.2.2.1
  · rfl

/-! Date-rewrite pass structure. -/

/-- Equation: empty token list. -/
theorem dr_nil : dateRewrite [] = [] := rfl

/-- Equation: one token. -/
theorem dr_one (t : Tok) : dateRewrite [t] = [rw1 t] := rfl

/-- Equation: two tokens. -/
theorem dr_two (t u : Tok) : dateRewrite [t, u] = [rw1 t, rw1 u] := rfl

/-- Equation: three or more tokens. -/
theorem dr_cons3 (d m y : Tok) (r : List Tok) :
    dateRewrite (d :: m :: y :: r) =
      if isDMY d m y then canon3 d m y :: dateRewrite r
      else rw1 d :: dateRewrite (m :: y :: r) := rfl

/-- Canonical triples fail all three date-part recognizers. -/
theorem canon3_not_dmy (d m y : Tok) :
    isDayTok (canon3 d m y) = false ∧ isMonthTok (canon3 d m y) = false ∧
      isYearTok (canon3 d m y) = false :=
  ⟨mkCanon_not_day _ _ _, mkCanon_not_month _ _ _, mkCanon_not_year _ _ _⟩

/-- The single-token rewrite leaves canonical triples unchanged. -/
theorem rw1_canon3 (d m y : Tok) : rw1 (canon3 d m y) = canon3 d m y :=
  rw1_mkCanon _ _ _

/-- When the head can start no recognized triple, the rewrite proceeds
tokenwise. -/
theorem dateRewrite_cons_of_notDMY {d : Tok} {R : List Tok}
    (h : ∀ a b r2, R = a :: b :: r2 → isDMY d a b = false) :
    dateRewrite (d :: R) = rw1 d :: dateRewrite R := by
  match R with
  | [] => rfl
  | [a] => rfl
  | a :: b :: r2 =>
    have hf := h a b r2 rfl
    simp [dr_cons3, hf]

/-- A token recognized as a date part is kept untouched at the head of a
rewrite output and comes from the same position of the input. -/
theorem rw1_eq_self_of_part {t : Tok}
    (hp : isDayTok (rw1 t) = true ∨ isMonthTok (rw1 t) = true ∨
      isYearTok (rw1 t) = true) : rw1 t = t := by
  rcases rw1_cases t with hh | ⟨y2, m2, d2, hh⟩
  · exact hh
  · rw [hh] at hp
    rcases hp with hq | hq | hq
    · rw [mkCanon_not_day] at hq
      simp at hq
    · rw [mkCanon_not_month] at hq
      simp at hq
    · rw [mkCanon_not_year] at hq
      simp at hq

/-- Head inversion of the date-rewrite pass: a head token recognized as
a date part was the input's head, unchanged. -/
theorem dateRewrite_head_keep :
    ∀ {l : List Tok} {a : Tok} {R' : List Tok},
      dateRewrite l = a :: R' →
      (isDayTok a = true ∨ isMonthTok a = true ∨ isYearTok a = true) →
      ∃ r, l = a :: r ∧ dateRewrite r = R' := by
  intro l a R' h hday
  match l with
  | [] => exact absurd h (by simp [dr_nil])
  | [t] =>
    rw [dr_one] at h
    injection h with h1 h2
    subst h1
    have ht := rw1_eq_self_of_part hday
    refine ⟨[], by rw [ht], ?_⟩
    rw [dr_nil]
    exact h2
  | [t, u] =>
    rw [dr_two] at h
    injection h with h1 h2
    subst h1
    have ht := rw1_eq_self_of_part hday
    refine ⟨[u], by rw [ht], ?_⟩
    rw [dr_one]
    exact h2
  | d :: m :: y :: rst =>
    rw [dr_cons3] at h
    by_cases hdmy : isDMY d m y = true
    · rw [if_pos hdmy] at h
      injection h with h1 h2
      rw [← h1] at hday
      rcases hday with hq | hq | hq
      · rw [(canon3_not_dmy d m y).1] at hq
        simp at hq
      · rw [(canon3_not_dmy d m y).2.1] at hq
        simp at hq
      · rw [(canon3_not_dmy d m y).2.2] at hq
        simp at hq
    · rw [if_neg hdmy] at h
      injection h with h1 h2
      subst h1
      have ht := rw1_eq_self_of_part hday
      exact ⟨m :: y :: rst, by rw [ht], h2⟩

/-- Pair inversion: a month-name token followed by a year token in a
rewrite output sat adjacent at the same position of the input. -/
theorem dateRewrite_pair_keep {l : List Tok} {a b : Tok} {R2 : List Tok}
    (h : dateRewrite l = a :: b :: R2) (hm : isMonthTok a = true)
    (hy : isYearTok b = true) : ∃ r, l = a :: b :: r := by
  rcases dateRewrite_head_keep h (Or.inr (Or.inl hm)) with ⟨r, rfl, hdr⟩
  rcases dateRewrite_head_keep hdr (Or.inr (Or.inr hy)) with ⟨r2, rfl, _⟩
  exact ⟨r2, rfl⟩

/-- The date-rewrite pass is idempotent. -/
theorem dateRewrite_idem (l : List Tok) :
    dateRewrite (dateRewrite l) = dateRewrite l := by
  suffices main : ∀ n (l : List Tok), l.length ≤ n →
      dateRewrite (dateRewrite l) = dateRewrite l by
    exact main l.length l (Nat.le_refl _)
  intro n
  induction n with
  | zero =>
    intro l hl
    have h0 : l = [] := List.length_eq_zero.mp (Nat.le_zero.mp hl)
    subst h0
    rfl
  | succ n ih =>
    intro l hl
    match l with
    | [] => rfl
    | [t] => rw [dr_one, dr_one, rw1_idem]
    | [t, u] => rw [dr_two, dr_two, rw1_idem, rw1_idem]
    | d :: m :: y :: rst =>
      have hlen3 : rst.length ≤ n := by
        simp only [List.length_cons] at hl
        omega
      have hlen2 : (m :: y :: rst).length ≤ n := by
        simp only [List.length_cons] at hl ⊢
        omega
      by_cases hdmy : isDMY d m y = true
      · rw [dr_cons3, if_pos hdmy]
        have hnot : ∀ a b r2, dateRewrite rst = a :: b :: r2 →
            isDMY (canon3 d m y) a b = false := by
          intro a b r2 _
          unfold isDMY
          rw [(canon3_not_dmy d m y).1]
          rfl
        rw [dateRewrite_cons_of_notDMY hnot, rw1_canon3, ih rst hlen3]
      · rw [dr_cons3, if_neg hdmy]
        have hR := ih (m :: y :: rst) hlen2
        by_cases hch : rw1 d = d
        · rw [hch]
          have hnot : ∀ a b r2, dateRewrite (m :: y :: rst) = a :: b :: r2 →
              isDMY d a b = false := by
            intro a b r2 hr
            by_contra hcon
            rw [Bool.not_eq_false] at hcon
            unfold isDMY at hcon
            rw [Bool.and_eq_true, Bool.and_eq_true] at hcon
            obtain ⟨⟨hd2, hm2⟩, hy2⟩ := hcon
            rcases dateRewrite_pair_keep hr hm2 hy2 with ⟨r', heq⟩
            injection heq with e1 e2
            injection e2 with e2 e3
            subst e1
            subst e2
            apply hdmy
            unfold isDMY
            rw [hd2, hm2, hy2]
            rfl
          rw [dateRewrite_cons_of_notDMY hnot, hch, hR]
        · rcases rw1_cases d with hc | ⟨y2, m2, d2, hmk⟩
          · exact absurd hc hch
          · have hnot : ∀ a b r2, dateRewrite (m :: y :: rst) = a :: b :: r2 →
                isDMY (rw1 d) a b = false := by
              intro a b r2 _
              unfold isDMY
              rw [hmk, mkCanon_not_day]
              rfl
            rw [dateRewrite_cons_of_notDMY hnot, rw1_idem, hR]

end UStmt

namespace UStmt

/-- Tokens of a line are nonempty and consist of non-space characters of
the line. -/
theorem mem_splitToks {t : Tok} {l : List Char} (h : t ∈ splitToks l) :
    t ≠ [] ∧ ∀ c ∈ t, c ∈ l ∧ c ≠ ' ' := by
  unfold splitToks at h
  rcases List.mem_filter.mp h with ⟨hmem, hne⟩
  refine ⟨by simpa [List.isEmpty_iff] using hne, ?_⟩
  intro c hc
  exact splitOn_sub hmem c hc

/-- Elements of a date-rewrite output are canonical date tokens or
single-token rewrites of input tokens. -/
theorem mem_dateRewrite :
    ∀ (ts : List Tok) (u : Tok), u ∈ dateRewrite ts →
      (∃ y m d, u = mkCanon y m d) ∨ ∃ t ∈ ts, u = rw1 t
  | [] => by
    intro u h
    simp [dr_nil] at h
  | [t] => by
    intro u h
    rw [dr_one] at h
    rcases List.mem_singleton.mp h with rfl
    exact Or.inr ⟨t, List.mem_singleton.mpr rfl, rfl⟩
  | [t, u2] => by
    intro u h
    rw [dr_two] at h
    rcases List.mem_cons.mp h with rfl | h2
    · exact Or.inr ⟨t, by simp, rfl⟩
    · rcases List.mem_singleton.mp h2 with rfl
      exact Or.inr ⟨u2, by simp, rfl⟩
  | d :: m :: y :: rst => by
    intro u h
    rw [dr_cons3] at h
    by_cases hdmy : isDMY d m y = true
    · rw [if_pos hdmy] at h
      rcases List.mem_cons.mp h with rfl | h2
      · exact Or.inl ⟨_, _, _, rfl⟩
      · rcases mem_dateRewrite rst u h2 with hc | ⟨t0, ht0, hu⟩
        · exact Or.inl hc
        · exact Or.inr ⟨t0, by simp [ht0], hu⟩
    · rw [if_neg hdmy] at h
      rcases List.mem_cons.mp h with rfl | h2
      · exact Or.inr ⟨d, by simp, rfl⟩
      · rcases mem_dateRewrite (m :: y :: rst) u h2 with hc | ⟨t0, ht0, hu⟩
        · exact Or.inl hc
        · exact Or.inr ⟨t0, List.mem_cons_of_mem _ ht0, hu⟩

/-- Canonical date tokens are nonempty, OCR-fixed, and built from
benign characters. -/
theorem mkCanon_props (y m d : Nat) :
    mkCanon y m d ≠ [] ∧ ocrFixTok (mkCanon y m d) = mkCanon y m d ∧
      ∀ c ∈ mkCanon y m d, c ≠ ' ' ∧ c ≠ '\n' ∧ fixChar c = c := by
  refine ⟨?_, ocrFixTok_mkCanon y m d, ?_⟩
  · intro h0
    have hlen := mkCanon_length y m d
    rw [h0] at hlen
    simp at hlen
  · intro c hc
    rcases mem_mkCanon hc with rfl | ⟨k, rfl⟩
    · exact ⟨by decide, by decide, by decide⟩
    · have f := digitChar_facts k
      exact ⟨f.2.2.2.1, f.2.2.2.2.1, f.2.2.2.2.2.1⟩

/-- Every token of a normalized line is nonempty, a fixed point of the
OCR correction, and free of spaces, newlines and encoding artifacts. -/
theorem normToks_props {l : List Char}
    (hl : ∀ c ∈ l, c ≠ '\n' ∧ fixChar c = c) :
    ∀ u ∈ dateRewrite ((splitToks l).map ocrFixTok),
      u ≠ [] ∧ ocrFixTok u = u ∧
        ∀ c ∈ u, c ≠ ' ' ∧ c ≠ '\n' ∧ fixChar c = c := by
  intro u hu
  rcases mem_dateRewrite _ u hu with ⟨y, m, d, rfl⟩ | ⟨t0, ht0, rfl⟩
  · exact mkCanon_props y m d
  · rcases List.mem_map.mp ht0 with ⟨t1, ht1, rfl⟩
    rcases mem_splitToks ht1 with ⟨hne1, hchars⟩
    rcases rw1_cases (ocrFixTok t1) with hr | ⟨y, m, d, hr⟩
    · rw [hr]
      refine ⟨?_, ocrFixTok_idem t1, ?_⟩
      · intro h0
        apply hne1
        have hlen := ocrFixTok_length t1
        rw [h0] at hlen
        exact (List.length_eq_zero.mp hlen.symm)
      · intro c hc
        rcases mem_ocrFixTok hc with rfl | hct
        · exact ⟨by decide, by decide, by decide⟩
        · rcases hchars c hct with ⟨hcl, hcs⟩
          rcases hl c hcl with ⟨hn, hf⟩
          exact ⟨hcs, hn, hf⟩
    · rw [hr]
      exact mkCanon_props y m d

/-- Normalizing one line is idempotent on newline-free,
encoding-repaired lines. -/
theorem normLine_idem {l : List Char}
    (hl : ∀ c ∈ l, c ≠ '\n' ∧ fixChar c = c) :
    normLine (normLine l) = normLine l := by
  have hprops := normToks_props hl
  unfold normLine
  rw [splitToks_joinToks (by
    intro t ht
    rcases hprops t ht with ⟨h1, _, h3⟩
    exact ⟨h1, fun c hc => (h3 c hc).1⟩)]
  rw [map_id_of_mem (by
    intro t ht
    exact (hprops t ht).2.1)]
  rw [dateRewrite_idem]

/-- Characters of a normalized line are newline-free and
encoding-repaired. -/
theorem normLine_chars {l : List Char}
    (hl : ∀ c ∈ l, c ≠ '\n' ∧ fixChar c = c) :
    ∀ c ∈ normLine l, c ≠ '\n' ∧ fixChar c = c := by
  intro c hc
  unfold normLine joinToks at hc
  rcases mem_intercalate _ c hc with rfl | ⟨u, hu, hcu⟩
  · exact ⟨by decide, by decide⟩
  · rcases (normToks_props hl u hu).2.2 c hcu with ⟨_, h2, h3⟩
    exact ⟨h2, h3⟩

/-- C2: the Normalizer is a pure function of the document text and is
idempotent — normalizing already-normalized text changes nothing. -/
theorem c2_normalize_idempotent (s : List Char) :
    normalizeText (normalizeText s) = normalizeText s := by
  have hl0 : ∀ l ∈ splitLines (s.map fixChar), ∀ c ∈ l, c ≠ '\n' ∧ fixChar c = c := by
    intro l hl c hc
    rcases splitOn_sub hl c hc with ⟨hcl, hcn⟩
    refine ⟨hcn, ?_⟩
    rcases List.mem_map.mp hcl with ⟨c0, _, rfl⟩
    exact fixChar_idem c0
  rw [normalizeText]
  have hfix : (normalizeText s).map fixChar = normalizeText s := by
    apply map_id_of_mem
    intro c hc
    rw [normalizeText] at hc
    unfold joinLines at hc
    rcases mem_intercalate _ c hc with rfl | ⟨m, hm, hcm⟩
    · decide
    · rcases List.mem_map.mp hm with ⟨l, hl, rfl⟩
      exact (normLine_chars (hl0 l hl) c hcm).2
  rw [hfix, normalizeText]
  have hM : splitLines (joinLines ((splitLines (s.map fixChar)).map normLine)) =
      (splitLines (s.map fixChar)).map normLine := by
    apply splitLines_joinLines
    · intro hemp
      rw [List.map_eq_nil_iff] at hemp
      exact List.splitOnP_ne_nil _ _ hemp
    · intro m hm
      rcases List.mem_map.mp hm with ⟨l, hl, rfl⟩
      intro hmem
      exact (normLine_chars (hl0 l hl) '\n' hmem).1 rfl
  rw [hM]
  congr 1
  apply map_id_of_mem
  intro m hm
  rcases List.mem_map.mp hm with ⟨l, hl, rfl⟩
  exact normLine_idem (hl0 l hl)

end UStmt

namespace UStmt

/-! Date-format round-trip facts for C8. -/

/-- Code of a digit character. -/
theorem digitChar_toNat (n : Nat) : (digitChar n).toNat = 48 + n % 10 := by
  unfold digitChar
  split_ifs with h0 h1 h2 h3 h4 h5 h6 h7 h8
  · rw [h0]; decide
  · rw [h1]; decide
  · rw [h2]; decide
  · rw [h3]; decide
  · rw [h4]; decide
  · rw [h5]; decide
  · rw [h6]; decide
  · rw [h7]; decide
  · rw [h8]; decide
  · have h9 : n % 10 = 9 := by omega
    rw [h9]; decide

/-- Two-digit numerals parse back to their value. -/
theorem toNum_pad2 {n : Nat} (h : n < 100) : toNum (pad2 n) = n := by
  unfold toNum pad2
  simp only [List.foldl_cons, List.foldl_nil]
  rw [digitChar_toNat, digitChar_toNat]
  omega

/-- Four-digit numerals parse back to their value. -/
theorem toNum_pad4 {n : Nat} (h : n < 10000) : toNum (pad4 n) = n := by
  unfold toNum pad4
  simp only [List.foldl_cons, List.foldl_nil]
  rw [digitChar_toNat, digitChar_toNat, digitChar_toNat, digitChar_toNat]
  omega

/-- Two-digit numerals are all digits. -/
theorem allDigits_pad2 (n : Nat) : allDigits (pad2 n) = true := by
  unfold allDigits pad2
  simp [(digitChar_facts (n / 10)).1, (digitChar_facts n).1]

/-- Four-digit numerals are all digits. -/
theorem allDigits_pad4 (n : Nat) : allDigits (pad4 n) = true := by
  unfold allDigits pad4
  simp [(digitChar_facts (n / 1000)).1, (digitChar_facts (n / 100)).1,
    (digitChar_facts (n / 10)).1, (digitChar_facts n).1]

/-- Two-digit numerals in day range are day tokens. -/
theorem isDayTok_pad2 {n : Nat} (h1 : 1 ≤ n) (h2 : n ≤ 31) :
    isDayTok (pad2 n) = true := by
  unfold isDayTok
  rw [allDigits_pad2, toNum_pad2 (by omega)]
  simp [pad2, h1, h2]

/-- Two-digit numerals in month range are numeric month tokens. -/
theorem isMonthNumTok_pad2 {n : Nat} (h1 : 1 ≤ n) (h2 : n ≤ 12) :
    isMonthNumTok (pad2 n) = true := by
  unfold isMonthNumTok
  rw [allDigits_pad2, toNum_pad2 (by omega)]
  simp [pad2, h1, h2]

/-- Four-digit numerals are year tokens. -/
theorem isYearTok_pad4 (n : Nat) : isYearTok (pad4 n) = true := by
  unfold isYearTok
  rw [allDigits_pad4]
  simp [pad4]

/-- Two-digit numerals are short year tokens. -/
theorem isYYTok_pad2 (n : Nat) : isYYTok (pad2 n) = true := by
  unfold isYYTok
  rw [allDigits_pad2]
  simp [pad2]

/-- Two-digit numerals are not four-digit year tokens. -/
theorem pad2_not_year (n : Nat) : isYearTok (pad2 n) = false := by
  unfold isYearTok
  simp [pad2]

/-- Splitting a rendered three-segment token recovers the segments. -/
theorem render_splitOn (sep : Char) (a b c : Tok)
    (ha : ∀ x ∈ a, ¬((x == sep) = true)) (hb : ∀ x ∈ b, ¬((x == sep) = true))
    (hc : ∀ x ∈ c, ¬((x == sep) = true)) :
    (a ++ sep :: (b ++ sep :: c)).splitOn sep = [a, b, c] := by
  show List.splitOnP _ _ = _
  rw [List.splitOnP_first _ _ ha sep (by simp) _,
    List.splitOnP_first _ _ hb sep (by simp) _,
    List.splitOnP_eq_single _ _ hc]

/-- Digit characters never match a slash separator. -/
theorem pad2_no_slash (n : Nat) : ∀ x ∈ pad2 n, ¬((x == '/') = true) := by
  intro x hx
  rcases mem_pad2 hx with ⟨k, rfl⟩
  simpa using (digitChar_facts k).2.2.1

/-- Digit characters never match a dash separator. -/
theorem pad2_no_dash (n : Nat) : ∀ x ∈ pad2 n, ¬((x == '-') = true) := by
  intro x hx
  rcases mem_pad2 hx with ⟨k, rfl⟩
  simpa using (digitChar_facts k).2.1

/-- Digit characters of four-digit numerals never match a slash. -/
theorem pad4_no_slash (n : Nat) : ∀ x ∈ pad4 n, ¬((x == '/') = true) := by
  intro x hx
  rcases mem_pad4 hx with ⟨k, rfl⟩
  simpa using (digitChar_facts k).2.2.1

/-- The rendered `DD/MM/YYYY` token rewrites to the canonical date. -/
theorem rw1_slash4 {d m y : Nat} (hd1 : 1 ≤ d) (hd2 : d ≤ 31)
    (hm1 : 1 ≤ m) (hm2 : m ≤ 12) (hy : y < 10000) :
    rw1 (pad2 d ++ '/' :: (pad2 m ++ '/' :: pad4 y)) = mkCanon y m d := by
  unfold rw1
  rw [render_splitOn '/' (pad2 d) (pad2 m) (pad4 y) (pad2_no_slash d)
    (pad2_no_slash m) (pad4_no_slash y)]
  simp [isDayTok_pad2 hd1 hd2, isMonthNumTok_pad2 hm1 hm2, isYearTok_pad4,
    toNum_pad4 hy, toNum_pad2 (show d < 100 by omega),
    toNum_pad2 (show m < 100 by omega)]

/-- The rendered two-digit-year `DD/MM/YY` token rewrites to the
canonical date in century 20. -/
theorem rw1_slash2 {d m yy : Nat} (hd1 : 1 ≤ d) (hd2 : d ≤ 31)
    (hm1 : 1 ≤ m) (hm2 : m ≤ 12) (hy : yy < 100) :
    rw1 (pad2 d ++ '/' :: (pad2 m ++ '/' :: pad2 yy)) = mkCanon (2000 + yy) m d := by
  unfold rw1
  rw [render_splitOn '/' (pad2 d) (pad2 m) (pad2 yy) (pad2_no_slash d)
    (pad2_no_slash m) (pad2_no_slash yy)]
  simp [isDayTok_pad2 hd1 hd2, isMonthNumTok_pad2 hm1 hm2, pad2_not_year,
    isYYTok_pad2, toNum_pad2 hy, toNum_pad2 (show d < 100 by omega),
    toNum_pad2 (show m < 100 by omega)]

/-- The rendered `DD-MM-YY` token rewrites to the canonical date in
century 20. -/
theorem rw1_dash2 {d m yy : Nat} (hd1 : 1 ≤ d) (hd2 : d ≤ 31)
    (hm1 : 1 ≤ m) (hm2 : m ≤ 12) (hy : yy < 100) :
    rw1 (pad2 d ++ '-' :: (pad2 m ++ '-' :: pad2 yy)) = mkCanon (2000 + yy) m d := by
  have hnoslash : ∀ x ∈ pad2 d ++ '-' :: (pad2 m ++ '-' :: pad2 yy),
      ¬((x == '/') = true) := by
    intro x hx
    simp only [List.mem_append, List.mem_cons] at hx
    rcases hx with h | h | h
    · exact pad2_no_slash d x h
    · rw [h]; decide
    · rcases h with h | h
      · exact pad2_no_slash m x h
      · rcases h with h | h
        · rw [h]; decide
        · exact pad2_no_slash yy x h
  unfold rw1
  rw [show (pad2 d ++ '-' :: (pad2 m ++ '-' :: pad2 yy)).splitOn '/' =
      [pad2 d ++ '-' :: (pad2 m ++ '-' :: pad2 yy)] from
    List.splitOnP_eq_single _ _ hnoslash]
  rw [render_splitOn '-' (pad2 d) (pad2 m) (pad2 yy) (pad2_no_dash d)
    (pad2_no_dash m) (pad2_no_dash yy)]
  simp [isDayTok_pad2 hd1 hd2, isMonthNumTok_pad2 hm1 hm2, isYYTok_pad2,
    toNum_pad2 hy, toNum_pad2 (show d < 100 by omega),
    toNum_pad2 (show m < 100 by omega)]

/-- The rendered `DD MMM YYYY` token triple rewrites in place to one
canonical date token. -/
theorem dateRewrite_dmy3 {d y : Nat} {mt : Tok} (hd1 : 1 ≤ d) (hd2 : d ≤ 31)
    (hy : y < 10000) (hm : isMonthTok mt = true) :
    dateRewrite [pad2 d, mt, pad4 y] = [mkCanon y (monthNum mt) d] := by
  rw [dr_cons3]
  rw [if_pos (by
    unfold isDMY
    rw [isDayTok_pad2 hd1 hd2, hm, isYearTok_pad4]
    rfl)]
  unfold canon3
  rw [dr_nil, toNum_pad4 hy, toNum_pad2 (show d < 100 by omega)]

end UStmt

namespace UStmt

/-- C8: the Normalizer rewrites every recognized date token —
`DD/MM/YYYY`, the `DD MMM YYYY` triple, `DD-MM-YY` and the
two-digit-year UK variant `DD/MM/YY` — into a canonical `YYYY-MM-DD`
token in place, leaving surrounding text unchanged; in particular both
`05/06/2023` and `05 Jun 2023` normalize to `2023-06-05`. -/
theorem c8_date_rewriting :
    (∀ d m y, 1 ≤ d → d ≤ 31 → 1 ≤ m → m ≤ 12 → y < 10000 →
      rw1 (pad2 d ++ '/' :: (pad2 m ++ '/' :: pad4 y)) = mkCanon y m d) ∧
    (∀ d m yy, 1 ≤ d → d ≤ 31 → 1 ≤ m → m ≤ 12 → yy < 100 →
      rw1 (pad2 d ++ '-' :: (pad2 m ++ '-' :: pad2 yy)) = mkCanon (2000 + yy) m d) ∧
    (∀ d m yy, 1 ≤ d → d ≤ 31 → 1 ≤ m → m ≤ 12 → yy < 100 →
      rw1 (pad2 d ++ '/' :: (pad2 m ++ '/' :: pad2 yy)) = mkCanon (2000 + yy) m d) ∧
    (∀ d y mt, 1 ≤ d → d ≤ 31 → y < 10000 → isMonthTok mt = true →
      dateRewrite [pad2 d, mt, pad4 y] = [mkCanon y (monthNum mt) d]) ∧
    normalizeText (str "05/06/2023") = str "2023-06-05" ∧
    normalizeText (str "05 Jun 2023") = str "2023-06-05" ∧
    normalizeText (str "Tesco 05/06/2023 ref 9") = str "Tesco 2023-06-05 ref 9" ∧
    normalizeText (str "05-06-23") = str "2023-06-05" ∧
    normalizeText (str "05/06/23") = str "2023-06-05" :=
  ⟨fun _ _ _ h1 h2 h3 h4 h5 => rw1_slash4 h1 h2 h3 h4 h5,
   fun _ _ _ h1 h2 h3 h4 h5 => rw1_dash2 h1 h2 h3 h4 h5,
   fun _ _ _ h1 h2 h3 h4 h5 => rw1_slash2 h1 h2 h3 h4 h5,
   fun _ _ _ h1 h2 h3 h4 => dateRewrite_dmy3 h1 h2 h3 h4,
   by decide, by decide, by decide, by decide, by decide⟩

/-- Witness for C8 at the concrete date 5 June 2023. -/
theorem c8_date_rewriting_witness :
    rw1 (pad2 5 ++ '/' :: (pad2 6 ++ '/' :: pad4 2023)) = mkCanon 2023 6 5 :=
  c8_date_rewriting.1 5 6 2023 (by decide) (by decide) (by decide) (by decide)
    (by decide)

end UStmt
